import Mathlib

/-!
Verification development for the Newegg product/review scraper:
a shallow embedding of the pacing, rotation, pagination and parsing
routines of the repository, with theorems about their behaviour.

Strings are modelled as `List Char` together with executable
re-implementations of the Python string primitives the source uses
(`strip`, `lower`, `startswith`, `replace`, `split`), so that every
concrete evaluation goes through the kernel.  Python floats are
modelled as `ℚ`.  Wall-clock time is abstracted into explicit
elapsed-time inputs, and randomness into oracle arguments.
-/

/-! ### Python string primitives (used by the review parser) -/

/-- Whitespace characters stripped by Python `str.strip()` (ASCII range). -/
def pyIsSpace (c : Char) : Bool :=
  c = ' ' || c = '\t' || c = '\n' || c = '\r' || c = '\x0b' || c = '\x0c'

/-- Python `str.strip()`: drop whitespace from both ends. -/
def pyStrip (s : List Char) : List Char :=
  ((s.dropWhile pyIsSpace).reverse.dropWhile pyIsSpace).reverse

/-- Python `str.lower()` (ASCII case folding, as used by the source). -/
def pyLower (s : List Char) : List Char := s.map Char.toLower

/-- Python `str.startswith(pat)`. -/
def pyStartsWith (s pat : List Char) : Bool := pat.isPrefixOf s

/-- Fuelled worker for `pyReplace`; the fuel is the length of the string,
which bounds the number of positions scanned. -/
def pyReplaceFuel (old new : List Char) : ℕ → List Char → List Char
  | 0, s => s
  | _, [] => []
  | fuel + 1, c :: rest =>
    if old ≠ [] && old.isPrefixOf (c :: rest) then
      new ++ pyReplaceFuel old new fuel ((c :: rest).drop old.length)
    else
      c :: pyReplaceFuel old new fuel rest

/-- Python `s.replace(old, new)` for a non-empty pattern: replace every
non-overlapping occurrence, scanning left to right. -/
def pyReplace (s old new : List Char) : List Char :=
  pyReplaceFuel old new s.length s

/-- Python `s.split(sep)` for the one-character separator used by the
source (newline): split into the maximal runs between separators. -/
def splitLines : List Char → List (List Char)
  | [] => [[]]
  | c :: rest =>
    match splitLines rest with
    | [] => [[c]]
    | h :: t => if c = '\n' then [] :: h :: t else (c :: h) :: t

/-! ### The free-text review parser (`_parse_review_sections`) -/

/-- Loop state of `_parse_review_sections`: the current section marker and
the three accumulated fields. -/
structure ParseState where
  current_section : List Char
  pros : List Char
  cons : List Char
  overall_review : List Char

/-- One iteration of the line loop of `_parse_review_sections`, translated
clause by clause: case-insensitive marker detection via
`trimmed_line.lower().startswith(...)`, marker removal via the
case-sensitive `trimmed_line.replace(marker, b)` with `b` empty, and the
continuation clause `field += (field + space if field else empty) + trimmed_line`. -/
def processLine (st : ParseState) (line : List Char) : ParseState :=
  let trimmed := pyStrip line
  if pyStartsWith (pyLower trimmed) (("pros:").data) then
    { st with current_section := ("pros").data,
              pros := pyStrip (pyReplace trimmed (("pros:").data) []) }
  else if pyStartsWith (pyLower trimmed) (("cons:").data) then
    { st with current_section := ("cons").data,
              cons := pyStrip (pyReplace trimmed (("cons:").data) []) }
  else if pyStartsWith (pyLower trimmed) (("overall review:").data)
      || pyStartsWith (pyLower trimmed) (("overall:").data) then
    { st with current_section := ("overall").data,
              overall_review :=
                pyStrip (pyReplace (pyReplace trimmed (("overall review:").data) [])
                  (("overall:").data) []) }
  else if trimmed ≠ [] && st.current_section ≠ [] then
    if st.current_section = ("pros").data then
      { st with pros := st.pros ++ ((if st.pros ≠ [] then st.pros ++ (" ").data else []) ++ trimmed) }
    else if st.current_section = ("cons").data then
      { st with cons := st.cons ++ ((if st.cons ≠ [] then st.cons ++ (" ").data else []) ++ trimmed) }
    else if st.current_section = ("overall").data then
      { st with overall_review :=
          st.overall_review ++ ((if st.overall_review ≠ [] then st.overall_review ++ (" ").data else []) ++ trimmed) }
    else st
  else st

/-- Python `field or sentinel` at the end of `_parse_review_sections`:
an empty field becomes the sentinel. -/
def orNotSpecified (s : List Char) : String :=
  if s = [] then ("Not specified") else String.mk s

/-- The free-text review parser `_parse_review_sections(content)`:
returns the (pros, cons, overall_review) triple. -/
def parseReviewSections (content : String) : String × String × String :=
  if content = "" then ("Not specified", "Not specified", "Not specified")
  else
    let lines := splitLines content.data
    let st := lines.foldl processLine ⟨[], [], [], []⟩
    (orNotSpecified st.pros, orNotSpecified st.cons, orNotSpecified st.overall_review)


/-- C1: the free-text review parser, evaluated on the specified inputs.
On the capitalized input the marker is matched case-insensitively but the
removal uses a case-sensitive replace of the lowercase marker, so the
marker text survives in the field: pros = "Pros: fast", not "fast".
The lowercase variant is parsed as the claim describes, showing the
stripping intent; the empty input yields the sentinel in all fields; and
a continuation line duplicates the already-accumulated text because the
source both re-includes the field in the appended text and uses an
augmented assignment. -/
theorem C1_parser_marker_not_stripped :
    parseReviewSections ("Pros: fast\nCons: loud\nOverall: good value")
      = ("Pros: fast", "Cons: loud", "Overall: good value")
    ∧ parseReviewSections ("") = ("Not specified", "Not specified", "Not specified")
    ∧ parseReviewSections ("pros: fast\ncons: loud\noverall: good value")
      = ("fast", "loud", "good value")
    ∧ parseReviewSections ("pros: fast\nquiet")
      = ("fastfast quiet", "Not specified", "Not specified") := by
  refine ⟨by decide, by decide, by decide, by decide⟩

/-! ### Identity rotation (`UserAgentRotator.get_next_profile`) -/

/-- Minimum of a non-empty list of naturals, Python `min(values)`;
the empty case is never reached (the pool is non-empty). -/
def listMinNat : List ℕ → ℕ
  | [] => 0
  | [x] => x
  | x :: y :: rest => min x (listMinNat (y :: rest))

/-- The rotator: strategy string, round-robin cursor, profile pool and
per-profile usage counters (`usage_count` starts at all zeros). -/
structure UserAgentRotator (α : Type) (n : ℕ) where
  rotation_strategy : String
  current_index : ℕ
  profiles : Fin n → α
  usage_count : Fin n → ℕ

/-- Python `self.usage_count.values()` as a list. -/
def usageValues {n : ℕ} (counts : Fin n → ℕ) : List ℕ :=
  (List.finRange n).map counts

/-- Python `min(self.usage_count.values())`. -/
def minUsage {n : ℕ} (counts : Fin n → ℕ) : ℕ :=
  listMinNat (usageValues counts)

/-- The candidate list of the weighted branch: indices whose usage count
equals the pool minimum. -/
def weightedCandidates {n : ℕ} (counts : Fin n → ℕ) : List (Fin n) :=
  (List.finRange n).filter (fun i => counts i = minUsage counts)

/-- The index selected by `get_next_profile`: uniform choice for
`random` (oracle `randIdx`), the cursor for `sequential`, a choice among
the minimum-usage candidates for `weighted` (oracle `choose`, standing
for `random.choice`), and index 0 for any other strategy string. -/
def selectedIndex {α : Type} {n : ℕ} (hn : 0 < n) (randIdx : Fin n)
    (choose : List (Fin n) → Fin n) (r : UserAgentRotator α n) : Fin n :=
  if r.rotation_strategy = "random" then randIdx
  else if r.rotation_strategy = "sequential" then ⟨r.current_index % n, Nat.mod_lt _ hn⟩
  else if r.rotation_strategy = "weighted" then choose (weightedCandidates r.usage_count)
  else ⟨0, hn⟩

/-- One call of `get_next_profile`: pick the index per strategy, advance
the round-robin cursor only in the `sequential` branch, increment the
usage counter of the chosen index, and return that profile. -/
def get_next_profile {α : Type} {n : ℕ} (hn : 0 < n) (randIdx : Fin n)
    (choose : List (Fin n) → Fin n) (r : UserAgentRotator α n) :
    α × UserAgentRotator α n :=
  let idx := selectedIndex hn randIdx choose r
  let r2 :=
    if r.rotation_strategy = "sequential" then
      { r with current_index := (r.current_index + 1) % n }
    else r
  (r.profiles idx,
   { r2 with usage_count := Function.update r2.usage_count idx (r2.usage_count idx + 1) })

/-- Iterated weighted calls, one choice oracle per call. -/
def applyWeighted {α : Type} {n : ℕ} (hn : 0 < n) :
    List (List (Fin n) → Fin n) → UserAgentRotator α n → UserAgentRotator α n
  | [], r => r
  | c :: cs, r => applyWeighted hn cs (get_next_profile hn ⟨0, hn⟩ c r).2

/-- The list minimum is a lower bound. -/
theorem listMinNat_le (l : List ℕ) : ∀ x ∈ l, listMinNat l ≤ x := by
  induction l with
  | nil => simp
  | cons a t ih =>
    intro x hx
    cases t with
    | nil =>
      rcases List.mem_singleton.1 hx with rfl
      simp [listMinNat]
    | cons b t2 =>
      rcases List.mem_cons.1 hx with rfl | hx2
      · simp [listMinNat]
      · calc listMinNat (a :: b :: t2) ≤ listMinNat (b :: t2) := by
              simp [listMinNat]
          _ ≤ x := ih x hx2

/-- The minimum of a non-empty list is attained. -/
theorem listMinNat_mem (l : List ℕ) (h : l ≠ []) : listMinNat l ∈ l := by
  induction l with
  | nil => exact absurd rfl h
  | cons a t ih =>
    cases t with
    | nil => simp [listMinNat]
    | cons b t2 =>
      have hmem := ih (by simp)
      rcases le_total a (listMinNat (b :: t2)) with hle | hle
      · simp [listMinNat, min_eq_left hle]
      · rw [show listMinNat (a :: b :: t2) = min a (listMinNat (b :: t2)) from rfl,
            min_eq_right hle]
        exact List.mem_cons_of_mem a hmem

/-- The pool minimum bounds every usage count from below. -/
theorem minUsage_le {n : ℕ} (counts : Fin n → ℕ) (k : Fin n) :
    minUsage counts ≤ counts k :=
  listMinNat_le _ _ (List.mem_map_of_mem counts (List.mem_finRange k))

/-- Membership in the weighted candidate list means having minimal usage. -/
theorem mem_weightedCandidates {n : ℕ} {counts : Fin n → ℕ} {i : Fin n} :
    i ∈ weightedCandidates counts ↔ counts i = minUsage counts := by
  simp [weightedCandidates, List.mem_filter, List.mem_finRange]

/-- For a non-empty pool the weighted candidate list is non-empty. -/
theorem weightedCandidates_ne_nil {n : ℕ} (hn : 0 < n) (counts : Fin n → ℕ) :
    weightedCandidates counts ≠ [] := by
  have hvals : usageValues counts ≠ [] := by
    have : (List.finRange n).length = n := List.length_finRange n
    intro hcon
    rw [usageValues] at hcon
    have := congrArg List.length hcon
    simp at this
    omega
  have hmem := listMinNat_mem _ hvals
  rcases List.mem_map.1 hmem with ⟨i, _, hi⟩
  exact List.ne_nil_of_mem (mem_weightedCandidates.2 hi)

/-- In the weighted strategy, the selected index always has minimal usage
count at the moment of the call (the source chooses among the argmin
candidates). -/
theorem weighted_selected_is_min {α : Type} {n : ℕ} (hn : 0 < n)
    (randIdx : Fin n) (choose : List (Fin n) → Fin n) (r : UserAgentRotator α n)
    (hs : r.rotation_strategy = "weighted")
    (hc : ∀ l, l ≠ [] → choose l ∈ l) :
    r.usage_count (selectedIndex hn randIdx choose r) = minUsage r.usage_count := by
  have h1 : selectedIndex hn randIdx choose r = choose (weightedCandidates r.usage_count) := by
    simp +decide [selectedIndex, hs]
  rw [h1]
  exact mem_weightedCandidates.1 (hc _ (weightedCandidates_ne_nil hn _))

/-- Incrementing an argmin preserves the max-minus-min-at-most-one bound. -/
theorem fair_update {n : ℕ} (counts : Fin n → ℕ) (i : Fin n)
    (hi : counts i = minUsage counts)
    (hfair : ∀ j k, counts j ≤ counts k + 1) :
    ∀ j k, Function.update counts i (counts i + 1) j
      ≤ Function.update counts i (counts i + 1) k + 1 := by
  intro j k
  have hj := minUsage_le counts j
  have hk := minUsage_le counts k
  have hf1 := hfair j k
  have hf2 := hfair j i
  have hf3 := hfair i k
  simp only [Function.update_apply]
  split_ifs with h1 h2 h2 <;> [skip; skip; skip; skip] <;>
    first
    | (subst h1; subst h2; omega)
    | (subst h1; omega)
    | (subst h2; omega)
    | omega

/-- A weighted call leaves the strategy unchanged and increments the
selected argmin index. -/
theorem weighted_step_eq {α : Type} {n : ℕ} (hn : 0 < n)
    (c : List (Fin n) → Fin n) (r : UserAgentRotator α n)
    (hs : r.rotation_strategy = "weighted") :
    (get_next_profile hn ⟨0, hn⟩ c r).2.usage_count
      = Function.update r.usage_count (selectedIndex hn ⟨0, hn⟩ c r)
          (r.usage_count (selectedIndex hn ⟨0, hn⟩ c r) + 1)
    ∧ (get_next_profile hn ⟨0, hn⟩ c r).2.rotation_strategy = r.rotation_strategy := by
  constructor <;> simp +decide [get_next_profile, hs]

/-- Strategy and fairness are preserved along any sequence of weighted calls. -/
theorem applyWeighted_invariant {α : Type} {n : ℕ} (hn : 0 < n)
    (oracles : List (List (Fin n) → Fin n)) (r : UserAgentRotator α n)
    (hs : r.rotation_strategy = "weighted")
    (hor : ∀ c ∈ oracles, ∀ l, l ≠ [] → c l ∈ l)
    (hfair : ∀ j k, r.usage_count j ≤ r.usage_count k + 1) :
    (applyWeighted hn oracles r).rotation_strategy = "weighted"
    ∧ ∀ j k, (applyWeighted hn oracles r).usage_count j
        ≤ (applyWeighted hn oracles r).usage_count k + 1 := by
  induction oracles generalizing r with
  | nil => exact ⟨hs, hfair⟩
  | cons c cs ih =>
    have hc : ∀ l, l ≠ [] → c l ∈ l := hor c (List.mem_cons_self c cs)
    have hmin := weighted_selected_is_min hn ⟨0, hn⟩ c r hs hc
    obtain ⟨hu, hstrat⟩ := weighted_step_eq hn c r hs
    have h1 : (applyWeighted hn (c :: cs) r)
        = applyWeighted hn cs (get_next_profile hn ⟨0, hn⟩ c r).2 := rfl
    rw [h1]
    refine ih _ (by rw [hstrat, hs]) (fun d hd => hor d (List.mem_cons_of_mem c hd)) ?_
    simp only [hu]
    exact fair_update _ _ hmin hfair

/-- C8: with the weighted strategy, starting from all-zero usage counters,
after any number of calls the profile selected by the next call has the
pool-minimum usage count at that moment, and the maximum usage count
minus the minimum usage count is at most 1. -/
theorem C8_weighted_fairness {α : Type} {n : ℕ} (hn : 0 < n)
    (r0 : UserAgentRotator α n) (hs : r0.rotation_strategy = "weighted")
    (oracles : List (List (Fin n) → Fin n))
    (hor : ∀ c ∈ oracles, ∀ l, l ≠ [] → c l ∈ l)
    (hfair0 : ∀ j k, r0.usage_count j ≤ r0.usage_count k + 1)
    (randIdx : Fin n) (choose : List (Fin n) → Fin n)
    (hc : ∀ l, l ≠ [] → choose l ∈ l) :
    ((applyWeighted hn oracles r0).usage_count
        (selectedIndex hn randIdx choose (applyWeighted hn oracles r0))
      = minUsage (applyWeighted hn oracles r0).usage_count)
    ∧ (∀ j k, (applyWeighted hn oracles r0).usage_count j
        ≤ (applyWeighted hn oracles r0).usage_count k + 1) := by
  obtain ⟨hs2, hfair2⟩ := applyWeighted_invariant hn oracles r0 hs hor hfair0
  exact ⟨weighted_selected_is_min hn randIdx choose _ hs2 hc, hfair2⟩

/-- Pool size of the source rotator (seven browser profiles). -/
theorem sevenPos : 0 < 7 := Nat.succ_pos 6

/-- Choice oracle used in witnesses: pick the first candidate. -/
def headFn7 : List (Fin 7) → Fin 7 := fun l => l.headD 0

/-- The head of a non-empty list is a member. -/
theorem headFn7_mem : ∀ l : List (Fin 7), l ≠ [] → headFn7 l ∈ l := by
  intro l hl
  cases l with
  | nil => exact absurd rfl hl
  | cons a t => simp [headFn7]

/-- Concrete weighted rotator over the seven-profile pool. -/
def rotC8 : UserAgentRotator ℕ 7 := ⟨"weighted", 0, fun i => i.val, fun _ => 0⟩

/-- Five weighted calls with the head-choice oracle. -/
def weightedOracles : List (List (Fin 7) → Fin 7) :=
  [headFn7, headFn7, headFn7, headFn7, headFn7]

/-- Witness for C8: the fairness bound after five weighted calls on the
concrete seven-profile rotator. -/
theorem C8_weighted_fairness_witness :
    (0 < 7 ∧ rotC8.rotation_strategy = "weighted")
    ∧ (∀ j k : Fin 7, (applyWeighted sevenPos weightedOracles rotC8).usage_count j
        ≤ (applyWeighted sevenPos weightedOracles rotC8).usage_count k + 1) :=
  ⟨⟨sevenPos, rfl⟩,
   (C8_weighted_fairness sevenPos rotC8 rfl weightedOracles
      (by
        intro c hc l hl
        have hceq : c = headFn7 := by simpa [weightedOracles] using hc
        exact hceq ▸ headFn7_mem l hl)
      (by intro j k; simp [rotC8])
      ⟨0, sevenPos⟩ headFn7 headFn7_mem).2⟩

/-- C10: for any rotation-strategy string other than the three known
ones, `get_next_profile` silently falls back to index 0: it returns the
first profile of the pool, increments the usage count of index 0, leaves
every other counter, the cursor, the strategy and the pool unchanged, and
does so independently of both randomness oracles. -/
theorem C10_unknown_strategy_fallback {α : Type} {n : ℕ} (hn : 0 < n)
    (randIdx : Fin n) (choose : List (Fin n) → Fin n) (r : UserAgentRotator α n)
    (h1 : r.rotation_strategy ≠ "random")
    (h2 : r.rotation_strategy ≠ "sequential")
    (h3 : r.rotation_strategy ≠ "weighted") :
    (get_next_profile hn randIdx choose r).1 = r.profiles ⟨0, hn⟩
    ∧ (get_next_profile hn randIdx choose r).2.usage_count ⟨0, hn⟩
        = r.usage_count ⟨0, hn⟩ + 1
    ∧ (∀ j : Fin n, j ≠ ⟨0, hn⟩ →
        (get_next_profile hn randIdx choose r).2.usage_count j = r.usage_count j)
    ∧ (get_next_profile hn randIdx choose r).2.current_index = r.current_index
    ∧ (get_next_profile hn randIdx choose r).2.rotation_strategy = r.rotation_strategy
    ∧ (get_next_profile hn randIdx choose r).2.profiles = r.profiles := by
  refine ⟨?_, ?_, fun j hj => ?_, ?_, ?_, ?_⟩
  case refine_3 =>
    simp [get_next_profile, selectedIndex, h1, h2, h3, Function.update_apply, hj]
  all_goals simp [get_next_profile, selectedIndex, h1, h2, h3, Function.update_apply]

/-- Concrete rotator with an unrecognized strategy string. -/
def rotC10 : UserAgentRotator ℕ 7 := ⟨"round_robin", 2, fun i => 100 + i.val, fun _ => 5⟩

/-- Witness for C10 on the concrete rotator. -/
theorem C10_unknown_strategy_fallback_witness :
    (rotC10.rotation_strategy ≠ "random"
      ∧ rotC10.rotation_strategy ≠ "sequential"
      ∧ rotC10.rotation_strategy ≠ "weighted")
    ∧ (get_next_profile sevenPos 3 headFn7 rotC10).1 = 100
    ∧ (get_next_profile sevenPos 3 headFn7 rotC10).2.usage_count ⟨0, sevenPos⟩ = 6 :=
  ⟨⟨by decide, by decide, by decide⟩,
   (C10_unknown_strategy_fallback sevenPos 3 headFn7 rotC10
      (by decide) (by decide) (by decide)).1,
   (C10_unknown_strategy_fallback sevenPos 3 headFn7 rotC10
      (by decide) (by decide) (by decide)).2.1⟩

/-! ### Review pagination (`_scrape_reviews`) -/

/-- Environment of the walk: whether the reviews entry point can be
located and activated (`_navigate_to_reviews`), the reviews extracted
from each 1-indexed page (`_extract_page_reviews`), and whether a next
page can be reached from each page (`_navigate_to_next_page`). -/
structure ReviewEnv (α : Type) where
  navOk : Bool
  pageReviews : ℕ → List α
  nextOk : ℕ → Bool

/-- Termination cause of the walk, matching the four distinct exit
messages of the source loop. -/
inductive WalkReason where
  | navNotFound
  | emptyPage
  | limitReached
  | noNextPage
deriving DecidableEq

/-- Python `max_pages is not None and current_page >= max_pages`. -/
def maxPagesReached (maxPages : Option ℕ) (cur : ℕ) : Bool :=
  match maxPages with
  | none => false
  | some m => decide (m ≤ cur)

/-- The body of the `while True` loop of `_scrape_reviews`, in source
order: extract the current page; an empty page ends the walk without
being appended; otherwise append it, then stop if the page limit is
reached, then stop if no next page exists, else advance.  The fuel
bounds the number of iterations; `none` means the loop is still
running when the fuel runs out. -/
def scrapeReviewsLoop {α : Type} (env : ReviewEnv α) (maxPages : Option ℕ) :
    ℕ → ℕ → List (List α) → Option (List (List α) × WalkReason)
  | 0, _, _ => none
  | fuel + 1, cur, acc =>
    if (env.pageReviews cur).isEmpty then some (acc, WalkReason.emptyPage)
    else
      let acc2 := acc ++ [env.pageReviews cur]
      if maxPagesReached maxPages cur then some (acc2, WalkReason.limitReached)
      else if env.nextOk cur = false then some (acc2, WalkReason.noNextPage)
      else scrapeReviewsLoop env maxPages fuel (cur + 1) acc2

/-- The walk `_scrape_reviews(max_pages)`: if the reviews entry point is
not located the walk returns zero pages at once; otherwise the page loop
starts at page 1 with an empty accumulator. -/
def scrapeReviews {α : Type} (env : ReviewEnv α) (maxPages : Option ℕ)
    (fuel : ℕ) : Option (List (List α) × WalkReason) :=
  if env.navOk then scrapeReviewsLoop env maxPages fuel 1 []
  else some ([], WalkReason.navNotFound)

/-- Loop lemma for an eventually-empty page sequence and no page limit:
the walk collects exactly the pages before the first empty one. -/
theorem scrapeReviewsLoop_empty_end {α : Type} (env : ReviewEnv α) (N : ℕ)
    (hnext : ∀ i, env.nextOk i = true)
    (hN : (env.pageReviews N).isEmpty = true) :
    ∀ fuel cur acc, cur ≤ N → N - cur < fuel →
      (∀ i, cur ≤ i → i < N → (env.pageReviews i).isEmpty = false) →
      scrapeReviewsLoop env none fuel cur acc
        = some (acc ++ (List.range' cur (N - cur)).map env.pageReviews,
            WalkReason.emptyPage) := by
  intro fuel
  induction fuel with
  | zero => intro cur acc _ h2 _; omega
  | succ fuel ih =>
    intro cur acc h1 h2 h3
    rcases eq_or_lt_of_le h1 with rfl | hlt
    · rw [scrapeReviewsLoop, if_pos hN]
      simp
    · have hcur : (env.pageReviews cur).isEmpty = false := h3 cur le_rfl hlt
      rw [scrapeReviewsLoop, if_neg (by simp [hcur])]
      have hmx : maxPagesReached none cur = false := rfl
      rw [if_neg (by simp [hmx]), if_neg (by simp [hnext cur])]
      rw [ih (cur + 1) (acc ++ [env.pageReviews cur]) (by omega) (by omega)
        (fun i hi1 hi2 => h3 i (by omega) hi2)]
      have hrange : List.range' cur (N - cur) = cur :: List.range' (cur + 1) (N - (cur + 1)) := by
        have : N - cur = (N - (cur + 1)) + 1 := by omega
        rw [this, List.range'_succ]
      rw [hrange]
      simp

/-- Loop lemma for a page limit `m` with all pages up to `m` non-empty:
the walk collects pages `cur..m` and reports the limit. -/
theorem scrapeReviewsLoop_limit {α : Type} (env : ReviewEnv α) (m : ℕ)
    (hnext : ∀ i, env.nextOk i = true) :
    ∀ fuel cur acc, cur ≤ m → m - cur < fuel →
      (∀ i, cur ≤ i → i ≤ m → (env.pageReviews i).isEmpty = false) →
      scrapeReviewsLoop env (some m) fuel cur acc
        = some (acc ++ (List.range' cur (m - cur + 1)).map env.pageReviews,
            WalkReason.limitReached) := by
  intro fuel
  induction fuel with
  | zero => intro cur acc _ h2 _; omega
  | succ fuel ih =>
    intro cur acc h1 h2 h3
    have hcur : (env.pageReviews cur).isEmpty = false := h3 cur le_rfl h1
    rw [scrapeReviewsLoop, if_neg (by simp [hcur])]
    rcases eq_or_lt_of_le h1 with rfl | hlt
    · rw [if_pos (by simp [maxPagesReached])]
      simp
    · rw [if_neg (by simp [maxPagesReached]; omega), if_neg (by simp [hnext cur])]
      rw [ih (cur + 1) (acc ++ [env.pageReviews cur]) (by omega) (by omega)
        (fun i hi1 hi2 => h3 i (by omega) hi2)]
      have hrange : List.range' cur (m - cur + 1)
          = cur :: List.range' (cur + 1) (m - (cur + 1) + 1) := by
        have : m - cur + 1 = (m - (cur + 1) + 1) + 1 := by omega
        rw [this, List.range'_succ]
      rw [hrange]
      simp

/-- C4 (amended): (a) if the reviews entry point is never located the
walk returns zero pages with a distinct non-error reason; (b) if pages
1..N-1 are non-empty, page N is empty and navigation always succeeds,
the walk terminates with exactly the N-1 non-empty pages and the
empty-page reason; (c) for a page limit m ≥ 1 with pages 1..m non-empty,
the walk terminates with exactly the m pages and the distinct
limit-reached reason. -/
theorem C4_walk_termination {α : Type} (env : ReviewEnv α)
    (maxPages : Option ℕ) (N m fuel : ℕ) :
    (env.navOk = false →
      scrapeReviews env maxPages fuel = some ([], WalkReason.navNotFound))
    ∧ (env.navOk = true → (∀ i, env.nextOk i = true) → 1 ≤ N → N ≤ fuel →
        (env.pageReviews N).isEmpty = true →
        (∀ i, 1 ≤ i → i < N → (env.pageReviews i).isEmpty = false) →
        scrapeReviews env none fuel
          = some ((List.range' 1 (N - 1)).map env.pageReviews, WalkReason.emptyPage))
    ∧ (env.navOk = true → (∀ i, env.nextOk i = true) → 1 ≤ m → m ≤ fuel →
        (∀ i, 1 ≤ i → i ≤ m → (env.pageReviews i).isEmpty = false) →
        scrapeReviews env (some m) fuel
          = some ((List.range' 1 m).map env.pageReviews, WalkReason.limitReached)) := by
  refine ⟨fun hnav => ?_, fun hnav hnext hN hfuel hNe hne => ?_, fun hnav hnext hm hfuel hne => ?_⟩
  · rw [scrapeReviews, if_neg (by simp [hnav])]
  · rw [scrapeReviews, if_pos hnav,
      scrapeReviewsLoop_empty_end env N hnext hNe fuel 1 [] hN (by omega) hne]
    simp
  · rw [scrapeReviews, if_pos hnav,
      scrapeReviewsLoop_limit env m hnext fuel 1 [] hm (by omega) hne]
    have : m - 1 + 1 = m := by omega
    simp [this]

/-- Environment that always yields a non-empty page and a next page. -/
def envInf : ReviewEnv ℕ := ⟨true, fun _ => [0], fun _ => true⟩

/-- On the always-non-empty environment with no page limit, the loop
never produces a result, whatever the fuel. -/
theorem scrapeReviewsLoop_envInf_none :
    ∀ fuel cur acc, scrapeReviewsLoop envInf none fuel cur acc = none := by
  intro fuel
  induction fuel with
  | zero => intro cur acc; rfl
  | succ fuel ih =>
    intro cur acc
    exact ih (cur + 1) (acc ++ [[0]])

/-- Counterexample to C4 as stated: against a target that always yields
a non-empty page and a next page, with no page limit, the walk never
terminates, for any number of loop iterations; and with the page limit
set to 0 against the same target, the walk returns one page rather than
zero pages. -/
theorem C4_counterexample :
    (¬ ∃ fuel r, scrapeReviews envInf none fuel = some r)
    ∧ scrapeReviews envInf (some 0) 5 = some ([[0]], WalkReason.limitReached) := by
  constructor
  · rintro ⟨fuel, r, hr⟩
    have hnone : scrapeReviews envInf none fuel = none := by
      rw [scrapeReviews, if_pos (show envInf.navOk = true from rfl)]
      exact scrapeReviewsLoop_envInf_none fuel 1 []
    rw [hnone] at hr
    exact Option.noConfusion hr
  · decide

/-- Environment with exactly two non-empty pages, page 3 empty. -/
def envThree : ReviewEnv ℕ := ⟨true, fun i => if i < 3 then [i] else [], fun _ => true⟩

/-- Environment whose entry point is never located. -/
def envNoNav : ReviewEnv ℕ := ⟨false, fun _ => [], fun _ => false⟩

/-- Witness for C4: the three termination scenarios on concrete
environments. -/
theorem C4_walk_termination_witness :
    scrapeReviews envNoNav none 5 = some ([], WalkReason.navNotFound)
    ∧ scrapeReviews envThree none 5 = some ([[1], [2]], WalkReason.emptyPage)
    ∧ scrapeReviews envThree (some 2) 5 = some ([[1], [2]], WalkReason.limitReached) := by
  refine ⟨(C4_walk_termination envNoNav none 3 2 5).1 rfl, ?_, ?_⟩
  · rw [(C4_walk_termination envThree none 3 2 5).2.1 rfl (fun i => rfl)
      (by omega) (by omega) (by decide)
      (by intro i h1 h2; interval_cases i <;> decide)]
    decide
  · rw [(C4_walk_termination envThree none 3 2 5).2.2 rfl (fun i => rfl)
      (by omega) (by omega)
      (by intro i h1 h2; interval_cases i <;> decide)]
    decide

/-! ### Token-bucket rate limiter (`TokenBucketRateLimiter`) -/

/-- Configuration record `RateLimitConfig`, with the source defaults. -/
structure RateLimitConfig where
  requests_per_second : ℚ := 1
  burst_size : ℚ := 5
  min_delay : ℚ := 1/2
  max_delay : ℚ := 5
  adaptive : Bool := true
  error_threshold : ℚ := 1/10
  success_threshold : ℚ := 9/10

/-- Mutable state of `TokenBucketRateLimiter`; the wall clock
(`last_refill`) is abstracted into explicit elapsed-time inputs. -/
structure RateLimiterState where
  tokens : ℚ
  refill_rate : ℚ
  current_rate : ℚ
  error_count : ℕ
  success_count : ℕ
  response_times : List (ℚ × ℚ)
  error_times : List ℚ

/-- The constructor: a full bucket, both rates at the configured
baseline, zero counters and empty sample windows. -/
def initState (cfg : RateLimitConfig) : RateLimiterState :=
  ⟨cfg.burst_size, cfg.requests_per_second, cfg.requests_per_second, 0, 0, [], []⟩

/-- Append to a `collections.deque(maxlen=m)`: when full, the oldest
element is evicted from the left. -/
def dequeAppend {β : Type} (maxlen : ℕ) (l : List β) (x : β) : List β :=
  if l.length < maxlen then l ++ [x] else l.tail ++ [x]

/-- The private `_refill_tokens`: add `elapsed * refill_rate` tokens,
capped at the burst capacity. -/
def refillTokens (cfg : RateLimitConfig) (s : RateLimiterState)
    (elapsed : ℚ) : RateLimiterState :=
  { s with tokens := min cfg.burst_size (s.tokens + elapsed * s.refill_rate) }

/-- The private `_adaptive_adjustment(success, response_time)`: increment
the counter for the recorded outcome and append to the matching sample
window; then, once at least 10 total observations exist, evaluate only
the threshold matching this outcome and clamp the new rate. -/
def adaptiveAdjustment (cfg : RateLimitConfig) (s : RateLimiterState)
    (success : Bool) (now responseTime : ℚ) : RateLimiterState :=
  if success then
    let s1 := { s with success_count := s.success_count + 1,
                       response_times := dequeAppend 100 s.response_times (now, responseTime) }
    let total : ℕ := s1.success_count + s1.error_count
    if 10 ≤ total then
      if cfg.success_threshold < (s1.success_count : ℚ) / (total : ℚ) then
        let r := min (s1.current_rate * (11/10)) (cfg.requests_per_second * 2)
        { s1 with current_rate := r, refill_rate := r }
      else s1
    else s1
  else
    let s1 := { s with error_count := s.error_count + 1,
                       error_times := dequeAppend 100 s.error_times now }
    let total : ℕ := s1.success_count + s1.error_count
    if 10 ≤ total then
      if cfg.error_threshold < (s1.error_count : ℚ) / (total : ℚ) then
        let r := max (s1.current_rate * (1/2)) (cfg.requests_per_second * (1/10))
        { s1 with current_rate := r, refill_rate := r }
      else s1
    else s1

/-- Method `record_request(success, response_time)`: feed the adaptive
adjustment only when adaptive mode is enabled. -/
def record_request (cfg : RateLimitConfig) (s : RateLimiterState)
    (success : Bool) (now responseTime : ℚ) : RateLimiterState :=
  if cfg.adaptive then adaptiveAdjustment cfg s success now responseTime else s

/-- One recorded outcome: the flag and the two time arguments. -/
structure RecordCall where
  success : Bool
  now : ℚ
  response_time : ℚ

/-- A sequence of `record_request` calls. -/
def applyRecords (cfg : RateLimitConfig) : RateLimiterState → List RecordCall → RateLimiterState
  | s, [] => s
  | s, c :: cs => applyRecords cfg (record_request cfg s c.success c.now c.response_time) cs

/-- Result of one iteration of the `acquire` polling loop. -/
inductive AcquireOutcome where
  | success
  | failure
  | retry
deriving DecidableEq

/-- Python `timeout and (time.time() - start_time) > timeout`: `None`
and `0` are falsy, any other value enables the strict comparison. -/
def timeoutExpired (timeout : Option ℚ) (sinceStart : ℚ) : Bool :=
  match timeout with
  | none => false
  | some t => decide (t ≠ 0) && decide (t < sinceStart)

/-- One iteration of the `while True` loop of `acquire(timeout)`:
refill, consume a token if at least one is available, otherwise fail if
the timeout test fires, otherwise sleep and retry. -/
def acquireIter (cfg : RateLimitConfig) (s : RateLimiterState)
    (timeout : Option ℚ) (elapsed sinceStart : ℚ) :
    AcquireOutcome × RateLimiterState :=
  let s1 := refillTokens cfg s elapsed
  if 1 ≤ s1.tokens then (AcquireOutcome.success, { s1 with tokens := s1.tokens - 1 })
  else if timeoutExpired timeout sinceStart then (AcquireOutcome.failure, s1)
  else (AcquireOutcome.retry, s1)

/-- The full `acquire` polling loop over a schedule of
(elapsed-since-last-refill, elapsed-since-start) pairs; `none` means the
loop is still polling when the schedule ends. -/
def acquireLoop (cfg : RateLimitConfig) (timeout : Option ℚ) :
    List (ℚ × ℚ) → RateLimiterState → Option Bool × RateLimiterState
  | [], s => (none, s)
  | (d, e) :: rest, s =>
    let r := acquireIter cfg s timeout d e
    if r.1 = AcquireOutcome.success then (some true, r.2)
    else if r.1 = AcquireOutcome.failure then (some false, r.2)
    else acquireLoop cfg timeout rest r.2

/-- An interleaving step for the bucket: a bare refill or one acquire
iteration. -/
inductive BucketOp where
  | refillOp (elapsed : ℚ)
  | tryAcquire (timeout : Option ℚ) (elapsed sinceStart : ℚ)

/-- The elapsed-time input of a bucket operation. -/
def opElapsed : BucketOp → ℚ
  | BucketOp.refillOp d => d
  | BucketOp.tryAcquire _ d _ => d

/-- State effect of one bucket operation. -/
def bucketStep (cfg : RateLimitConfig) (s : RateLimiterState) : BucketOp → RateLimiterState
  | BucketOp.refillOp d => refillTokens cfg s d
  | BucketOp.tryAcquire t d e => (acquireIter cfg s t d e).2

/-- A sequence of bucket operations. -/
def applyBucket (cfg : RateLimitConfig) : List BucketOp → RateLimiterState → RateLimiterState
  | [], s => s
  | op :: ops, s => applyBucket cfg ops (bucketStep cfg s op)

/-- The default configuration (all source defaults). -/
def cfgDefault : RateLimitConfig := {}

/-- One adaptive adjustment keeps the current rate inside
`[0.1 * baseline, 2 * baseline]` and keeps the refill rate equal to the
current rate. -/
theorem adaptive_rate_invariant (cfg : RateLimitConfig) (s : RateLimiterState)
    (success : Bool) (now rt : ℚ) (hb : 0 < cfg.requests_per_second)
    (hlo : cfg.requests_per_second * (1/10) ≤ s.current_rate)
    (hhi : s.current_rate ≤ cfg.requests_per_second * 2)
    (heq : s.refill_rate = s.current_rate) :
    cfg.requests_per_second * (1/10) ≤ (adaptiveAdjustment cfg s success now rt).current_rate
    ∧ (adaptiveAdjustment cfg s success now rt).current_rate ≤ cfg.requests_per_second * 2
    ∧ (adaptiveAdjustment cfg s success now rt).refill_rate
        = (adaptiveAdjustment cfg s success now rt).current_rate := by
  cases success <;> simp only [adaptiveAdjustment] <;> norm_num <;> split_ifs <;>
    refine ⟨?_, ?_, ?_⟩ <;>
    simp only [le_max_iff, max_le_iff, le_min_iff, min_le_iff, heq] <;>
    first
    | rfl
    | exact Or.inr le_rfl
    | constructor <;> first | linarith | (left; linarith) | (right; linarith)
    | linarith
    | (left; linarith)
    | (right; linarith)

/-- The rate invariant propagates along any sequence of recorded outcomes. -/
theorem applyRecords_rate_invariant (cfg : RateLimitConfig)
    (hb : 0 < cfg.requests_per_second) (hA : cfg.adaptive = true)
    (tr : List RecordCall) :
    ∀ s, cfg.requests_per_second * (1/10) ≤ s.current_rate →
      s.current_rate ≤ cfg.requests_per_second * 2 →
      s.refill_rate = s.current_rate →
      cfg.requests_per_second * (1/10) ≤ (applyRecords cfg s tr).current_rate
      ∧ (applyRecords cfg s tr).current_rate ≤ cfg.requests_per_second * 2
      ∧ (applyRecords cfg s tr).refill_rate = (applyRecords cfg s tr).current_rate := by
  induction tr with
  | nil => intro s h1 h2 h3; exact ⟨h1, h2, h3⟩
  | cons c cs ih =>
    intro s h1 h2 h3
    have hstep := adaptive_rate_invariant cfg s c.success c.now c.response_time hb h1 h2 h3
    have hrec : record_request cfg s c.success c.now c.response_time
        = adaptiveAdjustment cfg s c.success c.now c.response_time := by
      rw [record_request, if_pos hA]
    have hcons : applyRecords cfg s (c :: cs)
        = applyRecords cfg (record_request cfg s c.success c.now c.response_time) cs := rfl
    rw [hcons, hrec]
    exact ih _ hstep.1 hstep.2.1 hstep.2.2

/-- C5: with adaptive mode on and a positive baseline, after any
sequence of `record_request` calls the current rate stays within
`[0.1 * baseline, 2 * baseline]`, and the refill rate always equals the
current rate (every firing adjustment copies the new rate into the
refill rate, and no other call changes either). -/
theorem C5_current_rate_clamped (cfg : RateLimitConfig) (tr : List RecordCall)
    (hb : 0 < cfg.requests_per_second) (hA : cfg.adaptive = true) :
    cfg.requests_per_second * (1/10) ≤ (applyRecords cfg (initState cfg) tr).current_rate
    ∧ (applyRecords cfg (initState cfg) tr).current_rate ≤ cfg.requests_per_second * 2
    ∧ (applyRecords cfg (initState cfg) tr).refill_rate
        = (applyRecords cfg (initState cfg) tr).current_rate :=
  applyRecords_rate_invariant cfg hb hA tr (initState cfg)
    (by simp only [initState]; linarith) (by simp only [initState]; linarith)
    rfl

/-- Concrete two-call trace for the C5 witness. -/
def trW5 : List RecordCall := [⟨true, 0, 1⟩, ⟨false, 1, 2⟩]

/-- Witness for C5 on the default configuration. -/
theorem C5_current_rate_clamped_witness :
    (0 < cfgDefault.requests_per_second ∧ cfgDefault.adaptive = true)
    ∧ (cfgDefault.requests_per_second * (1/10)
        ≤ (applyRecords cfgDefault (initState cfgDefault) trW5).current_rate
      ∧ (applyRecords cfgDefault (initState cfgDefault) trW5).current_rate
        ≤ cfgDefault.requests_per_second * 2
      ∧ (applyRecords cfgDefault (initState cfgDefault) trW5).refill_rate
        = (applyRecords cfgDefault (initState cfgDefault) trW5).current_rate) :=
  ⟨⟨by norm_num [cfgDefault], rfl⟩,
   C5_current_rate_clamped cfgDefault trW5 (by norm_num [cfgDefault]) rfl⟩

/-- Refilling with non-negative elapsed time and a non-negative refill
rate keeps the token count within `[0, capacity]`. -/
theorem refill_bounds (cfg : RateLimitConfig) (s : RateLimiterState) (d : ℚ)
    (h0 : 0 ≤ s.tokens) (hc : s.tokens ≤ cfg.burst_size)
    (hr : 0 ≤ s.refill_rate) (hd : 0 ≤ d) :
    0 ≤ (refillTokens cfg s d).tokens
    ∧ (refillTokens cfg s d).tokens ≤ cfg.burst_size := by
  constructor
  · simp only [refillTokens]
    have hmul := mul_nonneg hd hr
    exact le_min (le_trans h0 hc) (by linarith)
  · exact min_le_left _ _

/-- One acquire iteration either consumes exactly one token after a
successful availability check, or leaves the refilled count unchanged. -/
theorem acquireIter_cases (cfg : RateLimitConfig) (s : RateLimiterState)
    (t : Option ℚ) (d e : ℚ) :
    ((acquireIter cfg s t d e).1 = AcquireOutcome.success
      ∧ 1 ≤ (refillTokens cfg s d).tokens
      ∧ (acquireIter cfg s t d e).2.tokens = (refillTokens cfg s d).tokens - 1)
    ∨ ((acquireIter cfg s t d e).1 ≠ AcquireOutcome.success
      ∧ (acquireIter cfg s t d e).2.tokens = (refillTokens cfg s d).tokens) := by
  simp only [acquireIter]
  split_ifs with h1 h2 <;> simp [h1]

/-- Neither a refill nor an acquire iteration changes the refill rate. -/
theorem bucketStep_refill_rate (cfg : RateLimitConfig) (s : RateLimiterState)
    (op : BucketOp) : (bucketStep cfg s op).refill_rate = s.refill_rate := by
  cases op with
  | refillOp d => rfl
  | tryAcquire t d e =>
    simp only [bucketStep, acquireIter]
    split_ifs <;> rfl

/-- One bucket operation preserves the token bounds. -/
theorem bucketStep_bounds (cfg : RateLimitConfig) (s : RateLimiterState)
    (op : BucketOp) (h0 : 0 ≤ s.tokens) (hc : s.tokens ≤ cfg.burst_size)
    (hr : 0 ≤ s.refill_rate) (hd : 0 ≤ opElapsed op) :
    0 ≤ (bucketStep cfg s op).tokens
    ∧ (bucketStep cfg s op).tokens ≤ cfg.burst_size := by
  cases op with
  | refillOp d => exact refill_bounds cfg s d h0 hc hr hd
  | tryAcquire t d e =>
    have hrb := refill_bounds cfg s d h0 hc hr hd
    rcases acquireIter_cases cfg s t d e with ⟨_, hge, heq⟩ | ⟨_, heq⟩ <;>
      rw [show bucketStep cfg s (BucketOp.tryAcquire t d e) = (acquireIter cfg s t d e).2 from rfl,
        heq] <;>
      constructor <;> linarith [hrb.1, hrb.2]

/-- The token bounds propagate along any interleaving of refills and
acquire iterations. -/
theorem applyBucket_invariant (cfg : RateLimitConfig) (ops : List BucketOp) :
    ∀ s, 0 ≤ s.tokens → s.tokens ≤ cfg.burst_size → 0 ≤ s.refill_rate →
      (∀ op ∈ ops, 0 ≤ opElapsed op) →
      0 ≤ (applyBucket cfg ops s).tokens
      ∧ (applyBucket cfg ops s).tokens ≤ cfg.burst_size
      ∧ (applyBucket cfg ops s).refill_rate = s.refill_rate := by
  induction ops with
  | nil => intro s h0 hc hr _; exact ⟨h0, hc, rfl⟩
  | cons op ops ih =>
    intro s h0 hc hr hops
    have hd := hops op (List.mem_cons_self op ops)
    have hstep := bucketStep_bounds cfg s op h0 hc hr hd
    have hrr := bucketStep_refill_rate cfg s op
    have := ih (bucketStep cfg s op) hstep.1 hstep.2 (by rw [hrr]; exact hr)
      (fun o ho => hops o (List.mem_cons_of_mem op ho))
    exact ⟨this.1, this.2.1, by rw [show applyBucket cfg (op :: ops) s
      = applyBucket cfg ops (bucketStep cfg s op) from rfl, this.2.2, hrr]⟩

/-- C6: for every interleaving of refill and acquire operations with
non-negative elapsed times, starting from a state within bounds with a
non-negative refill rate, the token count stays within `[0, capacity]`;
moreover a successful acquire iteration happens only when the refilled
count is at least 1, consumes exactly one token, and leaves a
non-negative count. -/
theorem C6_token_bounds (cfg : RateLimitConfig) (s0 : RateLimiterState)
    (ops : List BucketOp) (h0 : 0 ≤ s0.tokens) (hc : s0.tokens ≤ cfg.burst_size)
    (hr : 0 ≤ s0.refill_rate) (hops : ∀ op ∈ ops, 0 ≤ opElapsed op) :
    (0 ≤ (applyBucket cfg ops s0).tokens
      ∧ (applyBucket cfg ops s0).tokens ≤ cfg.burst_size)
    ∧ (∀ t d e, (acquireIter cfg (applyBucket cfg ops s0) t d e).1 = AcquireOutcome.success →
        1 ≤ (refillTokens cfg (applyBucket cfg ops s0) d).tokens
        ∧ (acquireIter cfg (applyBucket cfg ops s0) t d e).2.tokens
            = (refillTokens cfg (applyBucket cfg ops s0) d).tokens - 1
        ∧ 0 ≤ (acquireIter cfg (applyBucket cfg ops s0) t d e).2.tokens) := by
  obtain ⟨hb0, hbc, _⟩ := applyBucket_invariant cfg ops s0 h0 hc hr hops
  refine ⟨⟨hb0, hbc⟩, fun t d e hsucc => ?_⟩
  rcases acquireIter_cases cfg (applyBucket cfg ops s0) t d e with
    ⟨_, hge, heq⟩ | ⟨hne, _⟩
  · exact ⟨hge, heq, by rw [heq]; linarith⟩
  · exact absurd hsucc hne

/-- Concrete operation interleaving for the C6 witness. -/
def opsW6 : List BucketOp := [BucketOp.refillOp 1, BucketOp.tryAcquire none 0 0]

/-- Witness for C6 on the default configuration. -/
theorem C6_token_bounds_witness :
    (0 ≤ (initState cfgDefault).tokens
     ∧ (initState cfgDefault).tokens ≤ cfgDefault.burst_size
     ∧ 0 ≤ (initState cfgDefault).refill_rate)
    ∧ (0 ≤ (applyBucket cfgDefault opsW6 (initState cfgDefault)).tokens
     ∧ (applyBucket cfgDefault opsW6 (initState cfgDefault)).tokens ≤ cfgDefault.burst_size)
    ∧ (1 ≤ (refillTokens cfgDefault (applyBucket cfgDefault opsW6 (initState cfgDefault)) 0).tokens
     ∧ 0 ≤ (acquireIter cfgDefault (applyBucket cfgDefault opsW6 (initState cfgDefault)) none 0 0).2.tokens) := by
  have h := C6_token_bounds cfgDefault (initState cfgDefault) opsW6
    (by norm_num [initState, cfgDefault])
    (by norm_num [initState, cfgDefault])
    (by norm_num [initState, cfgDefault])
    (by
      intro op hop
      rcases (by simpa [opsW6] using hop : op = BucketOp.refillOp 1
        ∨ op = BucketOp.tryAcquire none 0 0) with rfl | rfl <;> norm_num [opElapsed])
  have hsucc : (acquireIter cfgDefault (applyBucket cfgDefault opsW6 (initState cfgDefault))
      none 0 0).1 = AcquireOutcome.success := by
    norm_num [applyBucket, bucketStep, acquireIter, refillTokens, timeoutExpired,
      initState, cfgDefault, opsW6, min_def]
  exact ⟨⟨by norm_num [initState, cfgDefault], by norm_num [initState, cfgDefault],
      by norm_num [initState, cfgDefault]⟩,
    h.1, (h.2 none 0 0 hsucc).1, (h.2 none 0 0 hsucc).2.2⟩

/-- The acquire loop reports failure exactly when no token is available
after the refill and the Python truthiness-guarded timeout test fires. -/
theorem acquireIter_failure_iff (cfg : RateLimitConfig) (s : RateLimiterState)
    (t : Option ℚ) (d e : ℚ) :
    (acquireIter cfg s t d e).1 = AcquireOutcome.failure
      ↔ ((refillTokens cfg s d).tokens < 1 ∧ timeoutExpired t e = true) := by
  simp only [acquireIter]
  split_ifs with h1 h2
  · exact iff_of_false (by simp) (fun h => absurd h1 (not_le.2 h.1))
  · exact iff_of_true rfl ⟨not_le.1 h1, h2⟩
  · exact iff_of_false (by simp) (fun h => absurd h.2 (by simp [h2]))

/-- If the timeout test can never fire, the acquire loop never returns
failure, whatever the polling schedule. -/
theorem acquireLoop_no_failure (cfg : RateLimitConfig) (t : Option ℚ)
    (ht : ∀ e, timeoutExpired t e = false) :
    ∀ sched s, (acquireLoop cfg t sched s).1 ≠ some false := by
  intro sched
  induction sched with
  | nil => intro s; simp [acquireLoop]
  | cons p rest ih =>
    intro s
    obtain ⟨d, e⟩ := p
    simp only [acquireLoop]
    by_cases h1 : (acquireIter cfg s t d e).1 = AcquireOutcome.success
    · simp [h1]
    · by_cases h2 : (acquireIter cfg s t d e).1 = AcquireOutcome.failure
      · have := (acquireIter_failure_iff cfg s t d e).1 h2
        rw [ht e] at this
        exact absurd this.2 (by simp)
      · simp only [if_neg h1, if_neg h2]
        exact ih (acquireIter cfg s t d e).2

/-- C9 (amended): one acquire iteration returns failure exactly when no
token is available after the refill and a non-None, non-zero timeout is
strictly exceeded by the elapsed time (Python truthiness of the timeout
argument); consequently with `timeout=None` and with `timeout=0` the
loop never returns failure and polls indefinitely. -/
theorem C9_failure_requires_truthy_timeout (cfg : RateLimitConfig)
    (s : RateLimiterState) (timeout : Option ℚ) (d e : ℚ) :
    ((acquireIter cfg s timeout d e).1 = AcquireOutcome.failure
      ↔ ((refillTokens cfg s d).tokens < 1 ∧ timeoutExpired timeout e = true))
    ∧ (∀ t2 : ℚ, timeoutExpired (some t2) e = true ↔ (t2 ≠ 0 ∧ t2 < e))
    ∧ (∀ sched s2, (acquireLoop cfg none sched s2).1 ≠ some false)
    ∧ (∀ sched s2, (acquireLoop cfg (some 0) sched s2).1 ≠ some false) := by
  refine ⟨acquireIter_failure_iff cfg s timeout d e, fun t2 => ?_, ?_, ?_⟩
  · simp [timeoutExpired]
  · exact acquireLoop_no_failure cfg none (fun e2 => rfl)
  · exact acquireLoop_no_failure cfg (some 0) (fun e2 => by simp [timeoutExpired])

/-- Empty-bucket state used by the C9 scenarios. -/
def sW9 : RateLimiterState := { initState cfgDefault with tokens := 0 }

/-- Counterexample to C9 as stated: with the strictly negative timeout
`-1` — which is not a strictly positive timeout — an acquire iteration
on an empty bucket returns failure, because Python only tests the
timeout for truthiness before comparing. -/
theorem C9_counterexample :
    (acquireIter cfgDefault sW9 (some (-1)) 0 (1/10)).1 = AcquireOutcome.failure
    ∧ ¬ (0 < (-1 : ℚ)) := by
  constructor
  · norm_num [acquireIter, refillTokens, timeoutExpired, sW9, initState, cfgDefault, min_def]
  · norm_num

/-- Witness for C9 on concrete inputs. -/
theorem C9_failure_requires_truthy_timeout_witness :
    ((acquireIter cfgDefault sW9 (some 5) 0 (1/10)).1 = AcquireOutcome.failure
      ↔ ((refillTokens cfgDefault sW9 0).tokens < 1
          ∧ timeoutExpired (some 5) (1/10) = true))
    ∧ (∀ sched s2, (acquireLoop cfgDefault none sched s2).1 ≠ some false) :=
  ⟨(C9_failure_requires_truthy_timeout cfgDefault sW9 (some 5) 0 (1/10)).1,
   (C9_failure_requires_truthy_timeout cfgDefault sW9 (some 5) 0 (1/10)).2.2.1⟩

/-- C2 (amended): once at least 10 total observations exist and adaptive
mode is on, each `record_request` call evaluates only the threshold
matching its own outcome: an error call whose error ratio (over the full
cumulative history, including this error) exceeds the error threshold
halves the rate clamped at `0.1 * baseline` and copies it to the refill
rate; a success call whose success ratio exceeds the success threshold
multiplies the rate by 1.1 clamped at `2 * baseline`; and a success call
never decreases the rate (it ignores the error threshold entirely), just
as an error call never increases it. -/
theorem C2_per_outcome_check (cfg : RateLimitConfig) (s : RateLimiterState)
    (now rt : ℚ) (hA : cfg.adaptive = true) :
    (10 ≤ s.success_count + (s.error_count + 1) →
      cfg.error_threshold
          < ((s.error_count + 1 : ℕ) : ℚ) / ((s.success_count + (s.error_count + 1) : ℕ) : ℚ) →
      (record_request cfg s false now rt).current_rate
          = max (s.current_rate * (1/2)) (cfg.requests_per_second * (1/10))
        ∧ (record_request cfg s false now rt).refill_rate
          = (record_request cfg s false now rt).current_rate)
    ∧ (10 ≤ s.success_count + 1 + s.error_count →
        cfg.success_threshold
            < ((s.success_count + 1 : ℕ) : ℚ) / ((s.success_count + 1 + s.error_count : ℕ) : ℚ) →
        (record_request cfg s true now rt).current_rate
            = min (s.current_rate * (11/10)) (cfg.requests_per_second * 2)
          ∧ (record_request cfg s true now rt).refill_rate
            = (record_request cfg s true now rt).current_rate)
    ∧ ((record_request cfg s true now rt).current_rate = s.current_rate
        ∨ (record_request cfg s true now rt).current_rate
          = min (s.current_rate * (11/10)) (cfg.requests_per_second * 2))
    ∧ ((record_request cfg s false now rt).current_rate = s.current_rate
        ∨ (record_request cfg s false now rt).current_rate
          = max (s.current_rate * (1/2)) (cfg.requests_per_second * (1/10))) := by
  refine ⟨fun h10 hgt => ?_, fun h10 hgt => ?_, ?_, ?_⟩
  · simp only [record_request, if_pos hA, adaptiveAdjustment, Bool.false_eq_true, if_false]
    rw [if_pos h10, if_pos hgt]
    exact ⟨rfl, rfl⟩
  · simp only [record_request, if_pos hA, adaptiveAdjustment, if_true]
    rw [if_pos h10, if_pos hgt]
    exact ⟨rfl, rfl⟩
  · simp only [record_request, if_pos hA, adaptiveAdjustment, if_true]
    split_ifs <;> simp
  · simp only [record_request, if_pos hA, adaptiveAdjustment, Bool.false_eq_true, if_false]
    split_ifs <;> simp

/-- A recorded outcome increments exactly the counter of its own kind. -/
theorem record_request_counts (cfg : RateLimitConfig) (hA : cfg.adaptive = true)
    (s : RateLimiterState) (b : Bool) (now rt : ℚ) :
    (record_request cfg s b now rt).success_count
      = s.success_count + (if b = true then 1 else 0)
    ∧ (record_request cfg s b now rt).error_count
      = s.error_count + (if b = true then 0 else 1) := by
  cases b <;>
    simp only [record_request, if_pos hA, adaptiveAdjustment] <;>
    norm_num <;> split_ifs <;> simp

/-- An error call below the minimum sample count only increments the
error counter. -/
theorem record_error_no_adjust (cfg : RateLimitConfig) (hA : cfg.adaptive = true)
    (s : RateLimiterState) (now rt : ℚ)
    (hlt : s.success_count + (s.error_count + 1) < 10) :
    (record_request cfg s false now rt).success_count = s.success_count
    ∧ (record_request cfg s false now rt).error_count = s.error_count + 1
    ∧ (record_request cfg s false now rt).current_rate = s.current_rate
    ∧ (record_request cfg s false now rt).refill_rate = s.refill_rate := by
  simp only [record_request, if_pos hA, adaptiveAdjustment, Bool.false_eq_true, if_false]
  rw [if_neg (by omega)]
  exact ⟨rfl, rfl, rfl, rfl⟩

/-- An error call at or above the minimum sample count whose error ratio
exceeds the threshold halves the rate, clamped at a tenth of the
baseline, and copies it to the refill rate. -/
theorem record_error_fired (cfg : RateLimitConfig) (hA : cfg.adaptive = true)
    (s : RateLimiterState) (now rt : ℚ)
    (h10 : 10 ≤ s.success_count + (s.error_count + 1))
    (hgt : cfg.error_threshold
      < ((s.error_count + 1 : ℕ) : ℚ) / ((s.success_count + (s.error_count + 1) : ℕ) : ℚ)) :
    (record_request cfg s false now rt).current_rate
      = max (s.current_rate * (1/2)) (cfg.requests_per_second * (1/10))
    ∧ (record_request cfg s false now rt).refill_rate
      = (record_request cfg s false now rt).current_rate := by
  simp only [record_request, if_pos hA, adaptiveAdjustment, Bool.false_eq_true, if_false]
  rw [if_pos h10, if_pos hgt]
  exact ⟨rfl, rfl⟩

/-- A success call whose success ratio does not exceed the threshold
leaves both rates unchanged, whatever the error ratio is. -/
theorem record_success_not_fired (cfg : RateLimitConfig) (hA : cfg.adaptive = true)
    (s : RateLimiterState) (now rt : ℚ)
    (hle : ¬ cfg.success_threshold
      < ((s.success_count + 1 : ℕ) : ℚ) / ((s.success_count + 1 + s.error_count : ℕ) : ℚ)) :
    (record_request cfg s true now rt).current_rate = s.current_rate
    ∧ (record_request cfg s true now rt).refill_rate = s.refill_rate := by
  simp only [record_request, if_pos hA, adaptiveAdjustment, if_true]
  by_cases h1 : 10 ≤ s.success_count + 1 + s.error_count
  · rw [if_pos h1, if_neg hle]
    exact ⟨rfl, rfl⟩
  · rw [if_neg h1]
    exact ⟨rfl, rfl⟩

/-- Record sequences compose by appending. -/
theorem applyRecords_append (cfg : RateLimitConfig) (l1 l2 : List RecordCall) :
    ∀ s, applyRecords cfg s (l1 ++ l2) = applyRecords cfg (applyRecords cfg s l1) l2 := by
  induction l1 with
  | nil => intro s; rfl
  | cons c cs ih => intro s; exact ih _

/-- A run of errors that stays below the minimum sample count only
accumulates the error counter. -/
theorem applyRecords_errors_fields (cfg : RateLimitConfig) (hA : cfg.adaptive = true)
    (now rt : ℚ) :
    ∀ (j : ℕ) (s : RateLimiterState), s.success_count + s.error_count + j < 10 →
      (applyRecords cfg s (List.replicate j ⟨false, now, rt⟩)).success_count = s.success_count
      ∧ (applyRecords cfg s (List.replicate j ⟨false, now, rt⟩)).error_count = s.error_count + j
      ∧ (applyRecords cfg s (List.replicate j ⟨false, now, rt⟩)).current_rate = s.current_rate
      ∧ (applyRecords cfg s (List.replicate j ⟨false, now, rt⟩)).refill_rate = s.refill_rate := by
  intro j
  induction j with
  | zero => intro s h; exact ⟨rfl, rfl, rfl, rfl⟩
  | succ j ih =>
    intro s h
    have hstep := record_error_no_adjust cfg hA s now rt (by omega)
    have hcons : applyRecords cfg s (List.replicate (j + 1) (⟨false, now, rt⟩ : RecordCall))
        = applyRecords cfg (record_request cfg s false now rt)
            (List.replicate j ⟨false, now, rt⟩) := by
      rw [List.replicate_succ]
      rfl
    have hrec := ih (record_request cfg s false now rt)
      (by rw [hstep.1, hstep.2.1]; omega)
    rw [hcons]
    refine ⟨?_, ?_, ?_, ?_⟩
    · rw [hrec.1, hstep.1]
    · rw [hrec.2.1, hstep.2.1]; omega
    · rw [hrec.2.2.1, hstep.2.2.1]
    · rw [hrec.2.2.2, hstep.2.2.2]

/-- One recorded error with zero time arguments. -/
def errCall : RecordCall := ⟨false, 0, 0⟩

/-- Ten consecutive errors from a fresh limiter. -/
def trC2 : List RecordCall := List.replicate 10 errCall

/-- The limiter state after ten consecutive errors on the default
configuration. -/
def sC2 : RateLimiterState := applyRecords cfgDefault (initState cfgDefault) trC2

/-- Counterexample to C2 as stated: after ten errors the history holds
10 observations, the rate has been halved once to 1/2, and at the next
call — a success — the error ratio 10/11 still exceeds the error
threshold 1/10; yet that success call leaves the current rate at 1/2
instead of halving it again to 1/4, because the success branch never
evaluates the error threshold. -/
theorem C2_counterexample :
    sC2.error_count = 10 ∧ sC2.success_count = 0 ∧ sC2.current_rate = 1/2
    ∧ cfgDefault.error_threshold
        < (sC2.error_count : ℚ) / ((sC2.success_count : ℚ) + (sC2.error_count : ℚ) + 1)
    ∧ (record_request cfgDefault sC2 true 0 0).current_rate = sC2.current_rate
    ∧ (record_request cfgDefault sC2 true 0 0).current_rate
        ≠ max (sC2.current_rate * (1/2)) (cfgDefault.requests_per_second * (1/10)) := by
  have hsplit : trC2 = List.replicate 9 errCall ++ [errCall] := List.replicate_succ' 9 errCall
  have h9 := applyRecords_errors_fields cfgDefault rfl 0 0 9 (initState cfgDefault)
    (by norm_num [initState, cfgDefault])
  have herr : (⟨false, 0, 0⟩ : RecordCall) = errCall := rfl
  rw [herr] at h9
  have hs9eq : sC2 = record_request cfgDefault
      (applyRecords cfgDefault (initState cfgDefault) (List.replicate 9 errCall))
      false 0 0 := by
    rw [sC2, hsplit, applyRecords_append]
    rfl
  have hinit1 : (initState cfgDefault).success_count = 0 := rfl
  have hinit2 : (initState cfgDefault).error_count = 0 := rfl
  have hinit3 : (initState cfgDefault).current_rate = 1 := rfl
  rw [hinit1] at h9
  rw [hinit2] at h9
  rw [hinit3] at h9
  set s9 := applyRecords cfgDefault (initState cfgDefault) (List.replicate 9 errCall) with hs9
  have hcnt := record_request_counts cfgDefault rfl s9 false 0 0
  have hfired := record_error_fired cfgDefault rfl s9 0 0
    (by rw [h9.1, h9.2.1])
    (by rw [h9.1, h9.2.1]; norm_num [cfgDefault])
  have he : sC2.error_count = 10 := by
    rw [hs9eq, hcnt.2, h9.2.1]
    norm_num
  have hsn : sC2.success_count = 0 := by
    rw [hs9eq, hcnt.1, h9.1]
    norm_num
  have hr : sC2.current_rate = 1/2 := by
    rw [hs9eq, hfired.1, h9.2.2.1]
    norm_num [cfgDefault, max_def]
  have hnofire := record_success_not_fired cfgDefault rfl sC2 0 0
    (by rw [hsn, he]; norm_num [cfgDefault])
  refine ⟨he, hsn, hr, ?_, hnofire.1, ?_⟩
  · rw [he, hsn]
    norm_num [cfgDefault]
  · rw [hnofire.1, hr]
    norm_num [cfgDefault, max_def]

/-- Concrete state for the C2 witness: nine errors and no successes
already recorded, rates at the baseline. -/
def sW2 : RateLimiterState := ⟨5, 1, 1, 9, 0, [], []⟩

/-- Witness for C2 (amended): on `sW2` an error call fires the error
check and halves the rate. -/
theorem C2_per_outcome_check_witness :
    (cfgDefault.adaptive = true
     ∧ 10 ≤ sW2.success_count + (sW2.error_count + 1)
     ∧ cfgDefault.error_threshold
        < ((sW2.error_count + 1 : ℕ) : ℚ) / ((sW2.success_count + (sW2.error_count + 1) : ℕ) : ℚ))
    ∧ ((record_request cfgDefault sW2 false 0 0).current_rate
        = max (sW2.current_rate * (1/2)) (cfgDefault.requests_per_second * (1/10))
      ∧ (record_request cfgDefault sW2 false 0 0).refill_rate
        = (record_request cfgDefault sW2 false 0 0).current_rate) :=
  ⟨⟨rfl, by norm_num [sW2], by norm_num [sW2, cfgDefault]⟩,
   (C2_per_outcome_check cfgDefault sW2 0 0 rfl).1
     (by norm_num [sW2]) (by norm_num [sW2, cfgDefault])⟩

/-- Appending to a bounded deque never exceeds the bound. -/
theorem dequeAppend_length_le {β : Type} (m : ℕ) (l : List β) (x : β)
    (h : l.length ≤ m) (hm : 1 ≤ m) : (dequeAppend m l x).length ≤ m := by
  simp only [dequeAppend]
  split_ifs with h1
  · simp only [List.length_append, List.length_singleton]
    omega
  · simp only [List.length_append, List.length_singleton, List.length_tail]
    omega

/-- A recorded outcome keeps both sample windows within their bound. -/
theorem record_request_windows (cfg : RateLimitConfig) (hA : cfg.adaptive = true)
    (s : RateLimiterState) (b : Bool) (now rt : ℚ)
    (h1 : s.response_times.length ≤ 100) (h2 : s.error_times.length ≤ 100) :
    (record_request cfg s b now rt).response_times.length ≤ 100
    ∧ (record_request cfg s b now rt).error_times.length ≤ 100 := by
  have hd1 := dequeAppend_length_le 100 s.response_times (now, rt) h1 (by omega)
  have hd2 := dequeAppend_length_le 100 s.error_times now h2 (by omega)
  cases b <;>
    simp only [record_request, if_pos hA, adaptiveAdjustment] <;>
    norm_num <;> split_ifs <;> exact ⟨by assumption, by assumption⟩

/-- Cumulative counters and bounded windows along a whole record
sequence. -/
theorem applyRecords_counts_windows (cfg : RateLimitConfig) (hA : cfg.adaptive = true)
    (tr : List RecordCall) :
    ∀ s, s.response_times.length ≤ 100 → s.error_times.length ≤ 100 →
      (applyRecords cfg s tr).success_count
        = s.success_count + tr.countP (fun c => c.success)
      ∧ (applyRecords cfg s tr).error_count
        = s.error_count + tr.countP (fun c => !c.success)
      ∧ (applyRecords cfg s tr).response_times.length ≤ 100
      ∧ (applyRecords cfg s tr).error_times.length ≤ 100 := by
  induction tr with
  | nil => intro s hw1 hw2; simp [applyRecords, hw1, hw2]
  | cons c cs ih =>
    intro s hw1 hw2
    have hcnt := record_request_counts cfg hA s c.success c.now c.response_time
    have hwin := record_request_windows cfg hA s c.success c.now c.response_time hw1 hw2
    have hcons : applyRecords cfg s (c :: cs)
        = applyRecords cfg (record_request cfg s c.success c.now c.response_time) cs := rfl
    have hrec := ih (record_request cfg s c.success c.now c.response_time) hwin.1 hwin.2
    rw [hcons]
    refine ⟨?_, ?_, hrec.2.2.1, hrec.2.2.2⟩
    · rw [hrec.1, hcnt.1, List.countP_cons]
      cases hc : c.success <;> simp [hc] <;> omega
    · rw [hrec.2.1, hcnt.2, List.countP_cons]
      cases hc : c.success <;> simp [hc] <;> omega

/-- Counting a predicate over a replicated list. -/
theorem countP_replicate {β : Type} (p : β → Bool) (x : β) (k : ℕ) :
    (List.replicate k x).countP p = if p x then k else 0 := by
  induction k with
  | zero => simp
  | succ k ih =>
    rw [List.replicate_succ, List.countP_cons, ih]
    split_ifs with hp <;> simp [hp]

/-- C3 (amended): the success and error counters over which the ratios
are computed are cumulative over the entire history — every recorded
outcome contributes forever, with no eviction — while only the
response-time and error-time sample deques are bounded (at most the last
100 entries, oldest evicted first). -/
theorem C3_counts_cumulative (cfg : RateLimitConfig) (hA : cfg.adaptive = true)
    (tr : List RecordCall) :
    (applyRecords cfg (initState cfg) tr).success_count = tr.countP (fun c => c.success)
    ∧ (applyRecords cfg (initState cfg) tr).error_count = tr.countP (fun c => !c.success)
    ∧ (applyRecords cfg (initState cfg) tr).response_times.length ≤ 100
    ∧ (applyRecords cfg (initState cfg) tr).error_times.length ≤ 100 := by
  have h := applyRecords_counts_windows cfg hA tr (initState cfg)
    (by simp [initState]) (by simp [initState])
  simpa [initState] using h

/-- One recorded success with zero time arguments. -/
def okCall : RecordCall := ⟨true, 0, 0⟩

/-- One early error followed by 150 successes — 151 observations, more
than the 100-entry windows. -/
def trC3 : List RecordCall := errCall :: List.replicate 150 okCall

/-- Counterexample to C3 as stated: after an early error followed by
150 successes — far more observations than the bounded window length —
the error counter still holds that first error and the error ratio is
1/151, not 0: the ratio counters are cumulative and never evict old
observations. -/
theorem C3_counterexample :
    trC3.length = 151
    ∧ (applyRecords cfgDefault (initState cfgDefault) trC3).error_count = 1
    ∧ (applyRecords cfgDefault (initState cfgDefault) trC3).success_count = 150
    ∧ ((applyRecords cfgDefault (initState cfgDefault) trC3).error_count : ℚ)
        / (((applyRecords cfgDefault (initState cfgDefault) trC3).success_count : ℚ)
          + ((applyRecords cfgDefault (initState cfgDefault) trC3).error_count : ℚ)) ≠ 0 := by
  have h := applyRecords_counts_windows cfgDefault rfl trC3 (initState cfgDefault)
    (by norm_num [initState]) (by norm_num [initState])
  have hcount1 : trC3.countP (fun c => !c.success) = 1 := by
    simp [trC3, List.countP_cons, countP_replicate, errCall, okCall]
  have hcount2 : trC3.countP (fun c => c.success) = 150 := by
    simp [trC3, List.countP_cons, countP_replicate, errCall, okCall]
  have he : (applyRecords cfgDefault (initState cfgDefault) trC3).error_count = 1 := by
    rw [h.2.1, hcount1]; rfl
  have hs : (applyRecords cfgDefault (initState cfgDefault) trC3).success_count = 150 := by
    rw [h.1, hcount2]; rfl
  refine ⟨by simp [trC3], he, hs, ?_⟩
  rw [he, hs]
  norm_num

/-- Mixed three-call trace for the C3 witness. -/
def trW3 : List RecordCall := [⟨true, 0, 1⟩, ⟨false, 1, 1⟩, ⟨true, 2, 1⟩]

/-- Witness for C3 (amended) on a concrete mixed trace. -/
theorem C3_counts_cumulative_witness :
    cfgDefault.adaptive = true
    ∧ (applyRecords cfgDefault (initState cfgDefault) trW3).success_count
        = trW3.countP (fun c => c.success)
    ∧ (applyRecords cfgDefault (initState cfgDefault) trW3).error_count
        = trW3.countP (fun c => !c.success) :=
  ⟨rfl, (C3_counts_cumulative cfgDefault rfl trW3).1,
   (C3_counts_cumulative cfgDefault rfl trW3).2.1⟩

/-! ### Adaptive delay (`AdaptiveDelay.calculate_delay`) -/

/-- State of `AdaptiveDelay`: construction parameters, the persisted
un-jittered delay, the bounded latency window and the two counters. -/
structure AdaptiveDelayState where
  base_delay : ℚ
  max_delay : ℚ
  current_delay : ℚ
  response_times : List ℚ
  error_count : ℕ
  success_count : ℕ

/-- The constructor `AdaptiveDelay(base_delay, max_delay)`. -/
def initDelay (base maxd : ℚ) : AdaptiveDelayState := ⟨base, maxd, base, [], 0, 0⟩

/-- The latency window after a success: Python appends
`last_response_time` only when it is truthy (not `None`, not `0.0`);
the deque is bounded at the last 50 samples. -/
def successWindow (s : AdaptiveDelayState) (lastResponseTime : Option ℚ) : List ℚ :=
  match lastResponseTime with
  | none => s.response_times
  | some t => if t ≠ 0 then dequeAppend 50 s.response_times t else s.response_times

/-- Method `calculate_delay(last_response_time, had_error)`, with the jitter
draw `random.uniform(0.8, 1.2)` passed as an oracle: on error, multiply
the stored delay by 1.5 capped at the maximum; on success, record the
latency and — once the window holds at least 10 samples — ease the delay
down towards half the base when the mean is below 1s, or up towards the
maximum when it is above 5s.  The returned value is the stored delay
times the jitter; only the un-jittered delay is stored. -/
def calculate_delay (s : AdaptiveDelayState) (lastResponseTime : Option ℚ)
    (hadError : Bool) (jitter : ℚ) : ℚ × AdaptiveDelayState :=
  if hadError then
    let s1 := { s with error_count := s.error_count + 1,
                       current_delay := min (s.current_delay * (3/2)) s.max_delay }
    (s1.current_delay * jitter, s1)
  else
    let w := successWindow s lastResponseTime
    let s1 := { s with success_count := s.success_count + 1, response_times := w }
    let s2 :=
      if 10 ≤ w.length then
        if w.sum / (w.length : ℚ) < 1 then
          { s1 with current_delay := max (s1.current_delay * (9/10)) (s1.base_delay * (1/2)) }
        else if 5 < w.sum / (w.length : ℚ) then
          { s1 with current_delay := min (s1.current_delay * (6/5)) s1.max_delay }
        else s1
      else s1
    (s2.current_delay * jitter, s2)

/-- One delay call: the latency argument, the error flag and the jitter
draw. -/
structure DelayCall where
  last_response_time : Option ℚ
  had_error : Bool
  jitter : ℚ

/-- A sequence of `calculate_delay` calls (threading only the state). -/
def applyDelays : AdaptiveDelayState → List DelayCall → AdaptiveDelayState
  | s, [] => s
  | s, c :: cs =>
    applyDelays (calculate_delay s c.last_response_time c.had_error c.jitter).2 cs

/-- One delay call never changes the construction parameters and keeps
the stored delay within `[base/2, max]`. -/
theorem calculate_delay_invariant (s : AdaptiveDelayState)
    (lrt : Option ℚ) (he : Bool) (j : ℚ)
    (h0 : 0 ≤ s.base_delay) (hbm : s.base_delay ≤ s.max_delay)
    (hlo : s.base_delay * (1/2) ≤ s.current_delay)
    (hhi : s.current_delay ≤ s.max_delay) :
    (calculate_delay s lrt he j).2.base_delay = s.base_delay
    ∧ (calculate_delay s lrt he j).2.max_delay = s.max_delay
    ∧ s.base_delay * (1/2) ≤ (calculate_delay s lrt he j).2.current_delay
    ∧ (calculate_delay s lrt he j).2.current_delay ≤ s.max_delay := by
  cases he <;> simp only [calculate_delay] <;> (try split_ifs) <;>
    norm_num [le_max_iff, max_le_iff, le_min_iff, min_le_iff] <;>
    (repeat' apply And.intro) <;>
    first
    | trivial
    | linarith
    | (left; linarith)
    | (right; linarith)

/-- An error call never decreases the stored delay. -/
theorem calculate_delay_error_nondec (s : AdaptiveDelayState)
    (lrt : Option ℚ) (j : ℚ) (h0 : 0 ≤ s.current_delay)
    (hhi : s.current_delay ≤ s.max_delay) :
    s.current_delay ≤ (calculate_delay s lrt true j).2.current_delay := by
  simp only [calculate_delay, if_true]
  norm_num [le_min_iff]
  constructor <;> linarith

/-- A success call whose (post-append) window either has fewer than 10
samples or a mean below 1s never increases the stored delay. -/
theorem calculate_delay_success_noninc (s : AdaptiveDelayState)
    (lrt : Option ℚ) (j : ℚ) (h0 : 0 ≤ s.current_delay)
    (hlo : s.base_delay * (1/2) ≤ s.current_delay)
    (hmean : 10 ≤ (successWindow s lrt).length →
      (successWindow s lrt).sum / ((successWindow s lrt).length : ℚ) < 1) :
    (calculate_delay s lrt false j).2.current_delay ≤ s.current_delay := by
  simp only [calculate_delay]
  norm_num
  split_ifs with h1 h2 h3
  · simp only [max_le_iff]
    constructor <;> linarith
  · exact absurd (hmean h1) h2
  · exact absurd (hmean h1) h2
  · exact le_rfl

/-- The jittered return value is the stored delay times the jitter, and
the stored state is independent of the jitter draw. -/
theorem calculate_delay_jitter (s : AdaptiveDelayState) (lrt : Option ℚ)
    (he : Bool) (j j2 : ℚ) :
    (calculate_delay s lrt he j).1 = (calculate_delay s lrt he j).2.current_delay * j
    ∧ (calculate_delay s lrt he j).2 = (calculate_delay s lrt he j2).2 := by
  cases he <;> simp only [calculate_delay] <;> norm_num <;> split_ifs <;> simp

/-- The delay invariant propagates along any sequence of calls. -/
theorem applyDelays_invariant (tr : List DelayCall) :
    ∀ s : AdaptiveDelayState, 0 ≤ s.base_delay → s.base_delay ≤ s.max_delay →
      s.base_delay * (1/2) ≤ s.current_delay → s.current_delay ≤ s.max_delay →
      (applyDelays s tr).base_delay = s.base_delay
      ∧ (applyDelays s tr).max_delay = s.max_delay
      ∧ s.base_delay * (1/2) ≤ (applyDelays s tr).current_delay
      ∧ (applyDelays s tr).current_delay ≤ s.max_delay := by
  induction tr with
  | nil => intro s h0 hbm hlo hhi; exact ⟨rfl, rfl, hlo, hhi⟩
  | cons c cs ih =>
    intro s h0 hbm hlo hhi
    have hstep := calculate_delay_invariant s c.last_response_time c.had_error c.jitter
      h0 hbm hlo hhi
    have hrec := ih (calculate_delay s c.last_response_time c.had_error c.jitter).2
      (by rw [hstep.1]; exact h0)
      (by rw [hstep.1, hstep.2.1]; exact hbm)
      (by rw [hstep.1]; exact hstep.2.2.1)
      (by rw [hstep.2.1]; exact hstep.2.2.2)
    have hcons : applyDelays s (c :: cs)
        = applyDelays (calculate_delay s c.last_response_time c.had_error c.jitter).2 cs := rfl
    rw [hcons]
    refine ⟨by rw [hrec.1, hstep.1], by rw [hrec.2.1, hstep.2.1], ?_, ?_⟩
    · have := hrec.2.2.1
      rw [hstep.1] at this
      exact this
    · have := hrec.2.2.2
      rw [hstep.2.1] at this
      exact this

/-- C7: for an `AdaptiveDelay` constructed with
`0 ≤ base_delay ≤ max_delay`, after any sequence of calls the stored
un-jittered delay stays within `[base_delay/2, max_delay]`; a further
error call never decreases it (so error-only runs are non-decreasing and
bounded by the maximum); a further success call whose latency window,
once it holds at least 10 samples, has a mean below 1s never increases
it (so such runs are non-increasing and bounded below by half the
base); and the jitter multiplies only the returned value — the stored
state is independent of the jitter draw. -/
theorem C7_adaptive_delay (base maxd : ℚ) (h0 : 0 ≤ base) (hbm : base ≤ maxd)
    (tr : List DelayCall) (lrt : Option ℚ) (j j2 : ℚ) :
    (base * (1/2) ≤ (applyDelays (initDelay base maxd) tr).current_delay
      ∧ (applyDelays (initDelay base maxd) tr).current_delay ≤ maxd)
    ∧ ((applyDelays (initDelay base maxd) tr).current_delay
        ≤ (calculate_delay (applyDelays (initDelay base maxd) tr) lrt true j).2.current_delay)
    ∧ ((10 ≤ (successWindow (applyDelays (initDelay base maxd) tr) lrt).length →
          (successWindow (applyDelays (initDelay base maxd) tr) lrt).sum
            / ((successWindow (applyDelays (initDelay base maxd) tr) lrt).length : ℚ) < 1) →
        (calculate_delay (applyDelays (initDelay base maxd) tr) lrt false j).2.current_delay
          ≤ (applyDelays (initDelay base maxd) tr).current_delay)
    ∧ (∀ he : Bool,
        (calculate_delay (applyDelays (initDelay base maxd) tr) lrt he j).1
          = (calculate_delay (applyDelays (initDelay base maxd) tr) lrt he j).2.current_delay * j
        ∧ (calculate_delay (applyDelays (initDelay base maxd) tr) lrt he j).2
          = (calculate_delay (applyDelays (initDelay base maxd) tr) lrt he j2).2) := by
  have hinv := applyDelays_invariant tr (initDelay base maxd) h0 hbm
    (by simp only [initDelay]; linarith) hbm
  have hcd0 : 0 ≤ (applyDelays (initDelay base maxd) tr).current_delay := by
    have hth := hinv.2.2.1
    rw [show (initDelay base maxd).base_delay = base from rfl] at hth
    nlinarith
  refine ⟨⟨hinv.2.2.1, hinv.2.2.2⟩, ?_, ?_, fun he => calculate_delay_jitter _ lrt he j j2⟩
  · exact calculate_delay_error_nondec _ lrt j hcd0 (by rw [hinv.2.1]; exact hinv.2.2.2)
  · intro hmean
    exact calculate_delay_success_noninc _ lrt j hcd0
      (by rw [hinv.1]; exact hinv.2.2.1) hmean

/-- Two-call trace for the C7 witness: a recorded success then an error. -/
def trW7 : List DelayCall := [⟨some 2, false, 1⟩, ⟨none, true, 6/5⟩]

/-- Witness for C7 with base delay 1 and maximum delay 10. -/
theorem C7_adaptive_delay_witness :
    ((0:ℚ) ≤ 1 ∧ (1:ℚ) ≤ 10)
    ∧ ((1:ℚ) * (1/2) ≤ (applyDelays (initDelay 1 10) trW7).current_delay
      ∧ (applyDelays (initDelay 1 10) trW7).current_delay ≤ 10)
    ∧ ((applyDelays (initDelay 1 10) trW7).current_delay
        ≤ (calculate_delay (applyDelays (initDelay 1 10) trW7) none true 1).2.current_delay)
    ∧ ((calculate_delay (initDelay 1 10) none false 1).2.current_delay
        ≤ (initDelay 1 10).current_delay) :=
  ⟨⟨by norm_num, by norm_num⟩,
   (C7_adaptive_delay 1 10 (by norm_num) (by norm_num) trW7 none 1 1).1,
   (C7_adaptive_delay 1 10 (by norm_num) (by norm_num) trW7 none 1 1).2.1,
   (C7_adaptive_delay 1 10 (by norm_num) (by norm_num) [] none 1 1).2.2.1
     (fun h => absurd h (by norm_num [successWindow, applyDelays, initDelay]))⟩
